import Mathlib

/-!
# Verification of the Shuriken `WaveformItem` core (src/src/waveformitem.cpp)

Shallow embedding of the waveform renderer and drag-reorder controller of
`WaveformItem`.  `qreal` (double) values are modelled as rationals `ℚ`;
C++ `int` values as `ℤ`.  Members of `WaveformItem` become fields of explicit
state records, and each C++ member function becomes a Lean function from the
old state (plus event inputs) to the new state together with the observable
outputs (emitted Qt signals, sample-buffer queries, drawn points).
`NOT_SET` sentinels are modelled with `Option` (`none` = `NOT_SET`).
-/

namespace Shuriken

/-- C++ conversion from a floating-point value to `int`: truncation toward
zero (`(int) x`). -/
def cppIntCast (q : ℚ) : ℤ :=
  if 0 ≤ q then ⌊q⌋ else ⌈q⌉

/-- The three rendering detail levels of `WaveformItem` (enum in the header:
`LOW`, `HIGH`, `VERY_HIGH`). -/
inductive DetailLevel : Type
  | LOW : DetailLevel
  | HIGH : DetailLevel
  | VERY_HIGH : DetailLevel
  deriving DecidableEq, Repr

/-- Fineness rank of a detail level: `VERY_HIGH` is the finest, `LOW` the
coarsest.  Used to state monotonicity of the detail-level policy. -/
def DetailLevel.fineness : DetailLevel → ℕ
  | .LOW => 0
  | .HIGH => 1
  | .VERY_HIGH => 2

/-- The fixed cutoff thresholds `DETAIL_LEVEL_VERY_HIGH_CUTOFF`,
`DETAIL_LEVEL_HIGH_CUTOFF` and `DETAIL_LEVEL_MAX_CUTOFF`.  Their numeric
values live in the header file `waveformitem.h`, which is not part of the
sources at hand, so they are kept as parameters: every theorem below holds
for all values of the cutoffs. -/
structure Cutoffs : Type where
  veryHigh : ℚ
  high : ℚ
  maxCutoff : ℚ

/-- The detail-level policy applied by `resetSampleBins` (lines 388-422):
`binSize ≤ DETAIL_LEVEL_VERY_HIGH_CUTOFF` gives `VERY_HIGH`, otherwise
`binSize ≤ DETAIL_LEVEL_HIGH_CUTOFF` gives `HIGH`, otherwise `LOW`. -/
def detailLevelOf (c : Cutoffs) (binSize : ℚ) : DetailLevel :=
  if binSize ≤ c.veryHigh then .VERY_HIGH
  else if binSize ≤ c.high then .HIGH
  else .LOW

/-- The renderer-relevant mutable state of a `WaveformItem`, plus the
immutable geometry and sample-buffer dimensions it reads.  Per-channel
cache-array lengths (`m_minSampleValues[chan]->size()` and
`m_maxSampleValues[chan]->size()`) are modelled as functions from channel
index to length. -/
structure RenderState : Type where
  rectWidth : ℚ
  numFrames : ℕ
  numChans : ℕ
  globalScaleFactor : Option ℚ
  numBins : ℤ
  binSize : ℚ
  detailLevel : DetailLevel
  firstCalculatedBin : Option ℤ
  lastCalculatedBin : Option ℤ
  minLens : ℕ → ℕ
  maxLens : ℕ → ℕ

/-- The `resize` loop of `resetSampleBins` (lines 403-407 and 415-419):
each channel array with index below `numChans` is resized to `numBins`. -/
def resizeChans (numChans : ℕ) (n : ℕ) (lens : ℕ → ℕ) : ℕ → ℕ :=
  fun i => if i < numChans then n else lens i

/-- `WaveformItem::resetSampleBins` (lines 378-423).  `z` is the value of
`m_globalScaleFactor` at the time of the call (always set by the caller
before this runs).  Recomputes `numBins` and `binSize`, clears the
calculated-bin range to `NOT_SET`, picks the detail level, and resizes the
per-channel cache arrays to `numBins` in the `HIGH` and `LOW` branches
(not in the `VERY_HIGH` branch).  `Array::resize` takes an `int`; a
non-positive request leaves an empty array, modelled by `Int.toNat`. -/
def resetSampleBins (c : Cutoffs) (st : RenderState) (z : ℚ) : RenderState :=
  if (st.numFrames : ℚ) / (st.rectWidth * z) ≤ c.veryHigh then
    { st with
      firstCalculatedBin := none, lastCalculatedBin := none,
      numBins := cppIntCast (st.rectWidth * z),
      binSize := (st.numFrames : ℚ) / (st.rectWidth * z),
      detailLevel := .VERY_HIGH }
  else if (st.numFrames : ℚ) / (st.rectWidth * z) ≤ c.high then
    { st with
      firstCalculatedBin := none, lastCalculatedBin := none,
      numBins := cppIntCast (st.rectWidth * z),
      binSize := (st.numFrames : ℚ) / (st.rectWidth * z),
      detailLevel := .HIGH,
      minLens := resizeChans st.numChans (cppIntCast (st.rectWidth * z)).toNat
        st.minLens,
      maxLens := resizeChans st.numChans (cppIntCast (st.rectWidth * z)).toNat
        st.maxLens }
  else
    { st with
      firstCalculatedBin := none, lastCalculatedBin := none,
      numBins := cppIntCast (st.rectWidth * z),
      binSize := (st.numFrames : ℚ) / (st.rectWidth * z),
      detailLevel := .LOW,
      minLens := resizeChans st.numChans (cppIntCast (st.rectWidth * z)).toNat
        st.minLens,
      maxLens := resizeChans st.numChans (cppIntCast (st.rectWidth * z)).toNat
        st.maxLens }

/-- The zoom-change check at the start of `WaveformItem::paint`
(lines 74-79): if the stored `m_globalScaleFactor` differs from the
painter's current horizontal scale factor (`worldTransform().m11()`),
store the new factor and call `resetSampleBins`. -/
def paintZoomStep (c : Cutoffs) (observedScale : ℚ) (st : RenderState) :
    RenderState :=
  if st.globalScaleFactor ≠ some observedScale then
    resetSampleBins c { st with globalScaleFactor := some observedScale }
      observedScale
  else st

/-- The visible-bin computation of `drawWaveformFromSampleBins`
(lines 450-451):
`firstVisibleBin = qMax( (int) floor( exposedRectLeft * scale ), 0 )` and
`lastVisibleBin = qMin( (int) ceil( exposedRectRight * scale ), numBins - 1 )`. -/
def visibleBins (scale : ℚ) (numBins : ℤ) (left right : ℚ) : ℤ × ℤ :=
  (max ⌊left * scale⌋ 0, min ⌈right * scale⌉ (numBins - 1))

/-- The calculated-bin range part of the renderer state:
`m_firstCalculatedBin` and `m_lastCalculatedBin`, `none` meaning `NOT_SET`. -/
structure CacheState : Type where
  firstCalculatedBin : Option ℤ
  lastCalculatedBin : Option ℤ
  deriving DecidableEq, Repr

/-- The cache-fill logic of `drawWaveformFromSampleBins` (lines 453-470),
as a function from the visible-bin range and the calculated-bin range to
the new calculated-bin range and the list of `findMinMaxSamples` calls
made, in order, each as an inclusive `(startBin, endBin)` pair.
If either end of the calculated range is `NOT_SET`, `findMinMaxSamples`
is called on the whole visible range and both ends are set to it (after
which the two extension tests compare the visible bins with themselves and
cannot fire).  Otherwise the left edge is extended when
`firstVisibleBin < m_firstCalculatedBin` and the right edge when
`lastVisibleBin > m_lastCalculatedBin`. -/
def binCacheFill (fvb lvb : ℤ) (st : CacheState) :
    CacheState × List (ℤ × ℤ) :=
  match st.firstCalculatedBin, st.lastCalculatedBin with
  | some f, some l =>
      let left : ℤ × List (ℤ × ℤ) :=
        if fvb < f then (fvb, [(fvb, f - 1)]) else (f, [])
      let right : ℤ × List (ℤ × ℤ) :=
        if lvb > l then (lvb, [(l + 1, lvb)]) else (l, [])
      (⟨some left.1, some right.1⟩, left.2 ++ right.2)
  | _, _ =>
      (⟨some fvb, some lvb⟩, [(fvb, lvb)])

/-- The set of bins actually queried by a list of `findMinMaxSamples`
calls: `findMinMaxSamples(startBin, endBin)` (lines 427-443) queries the
sample buffer once per bin for `binNum` from `startBin` to `endBin`
inclusive (no iteration when `startBin > endBin`). -/
def queriedBins : List (ℤ × ℤ) → Finset ℤ
  | [] => ∅
  | (s, e) :: rest => Finset.Icc s e ∪ queriedBins rest

/-- The cache-array indices read by the `LOW` and `HIGH` drawing loops of
`drawWaveformFromSampleBins` (lines 486-496 and 511-518): indices
`firstVisibleBin + count` for `count < numVisibleBins` where
`numVisibleBins = lastVisibleBin - firstVisibleBin + 1`, i.e. the bins from
`firstVisibleBin` to `lastVisibleBin` inclusive. -/
def drawnBinReads (fvb lvb : ℤ) : Finset ℤ :=
  Finset.Icc fvb lvb

/-- The reachable-state invariant of the calculated-bin range: either both
ends are `NOT_SET` (as at construction and after every `resetSampleBins`),
or both are set with the first end in `[0, numBins]` and the last end in
`[-1, numBins - 1]`. -/
def cacheInv (numBins : ℤ) (st : CacheState) : Prop :=
  match st.firstCalculatedBin, st.lastCalculatedBin with
  | some f, some l => 0 ≤ f ∧ f ≤ numBins ∧ -1 ≤ l ∧ l ≤ numBins - 1
  | _, _ =>
      st.firstCalculatedBin = none ∧ st.lastCalculatedBin = none

/-- `WaveformItem::drawWaveformFromSamples` (lines 528-561), for one
channel: the polyline points drawn at `VERY_HIGH` detail.  `samples` is the
channel's sample data (indexed from frame 0); the read pointer starts at
`firstVisibleFrame` and advances one frame per point. -/
def drawWaveformFromSamples (rectWidth : ℚ) (numFrames : ℕ)
    (samples : List ℚ) (exposedRectLeft exposedRectRight : ℚ) :
    List (ℚ × ℚ) :=
  let distanceBetweenFrames : ℚ := rectWidth / (numFrames : ℚ)
  let firstVisibleFrame : ℤ := ⌊exposedRectLeft / distanceBetweenFrames⌋
  let lastVisibleFrame : ℤ :=
    min ⌈exposedRectRight / distanceBetweenFrames⌉ ((numFrames : ℤ) - 1)
  let numVisibleFrames : ℤ := lastVisibleFrame - firstVisibleFrame + 1
  (List.range numVisibleFrames.toNat).map fun count : ℕ =>
    (((firstVisibleFrame + (count : ℤ)) : ℚ) * distanceBetweenFrames,
      -(samples.getD (firstVisibleFrame + (count : ℤ)).toNat 0))

/-- `BpmRuler::HEIGHT` from the globals header: the fixed vertical offset
below the BPM ruler at which waveform items sit. -/
def bpmRulerHeight : ℚ := 18

/-- The data of one waveform item seen by `itemChange`: its order position
and the width of its rect. -/
structure SelItem : Type where
  orderPos : ℤ
  width : ℚ
  deriving DecidableEq, Repr

/-- The accumulation loop of `WaveformItem::itemChange` (lines 167-177):
for each selected item, if this item's order position is greater than the
other's, the other's width is added to `minDistanceFromSceneLeftEdge`; if
smaller, to `minDistanceFromSceneRightEdge`; the item itself (equal order
position) contributes to neither.  Returns the pair
`(minDistanceFromSceneLeftEdge, minDistanceFromSceneRightEdge)`. -/
def minDistances (self : SelItem) (selectedItems : List SelItem) : ℚ × ℚ :=
  selectedItems.foldl
    (fun acc it =>
      if self.orderPos > it.orderPos then (acc.1 + it.width, acc.2)
      else if self.orderPos < it.orderPos then (acc.1, acc.2 + it.width)
      else acc)
    (0, 0)

/-- The `ItemPositionChange` branch of `WaveformItem::itemChange`
(lines 155-196): clamp the proposed position `newPos` so the item stays
within the scene rect, leaving room for the other selected items, and pin
the y coordinate to `BpmRuler::HEIGHT`.  The distance bounds are computed
only when the item is selected. -/
def itemChangePos (self : SelItem) (selectedItems : List SelItem)
    (isSelected : Bool) (sceneWidth : ℚ) (newPos : ℚ × ℚ) : ℚ × ℚ :=
  let dists : ℚ × ℚ :=
    if isSelected then minDistances self selectedItems else (0, 0)
  let minDistanceFromSceneLeftEdge := dists.1
  let minDistanceFromSceneRightEdge := dists.2
  let newPosRightEdge : ℚ := newPos.1 + self.width - 1
  let x : ℚ :=
    if newPos.1 < minDistanceFromSceneLeftEdge then
      minDistanceFromSceneLeftEdge
    else if newPosRightEdge > sceneWidth - minDistanceFromSceneRightEdge then
      sceneWidth - minDistanceFromSceneRightEdge - self.width
    else newPos.1
  (x, bpmRulerHeight)

/-- The Qt signals emitted by the reorder controller. -/
inductive WaveSignal : Type
  | orderPosIsChanging (orderPositions : List ℤ) (numPlacesMoved : ℤ)
  | orderPosHasChanged (oldOrderPositions : List ℤ) (numPlacesMoved : ℤ)
  | finishedMoving (orderPos : ℤ)
  deriving DecidableEq, Repr

/-- `WaveformItem::mouseReleaseEvent` (lines 333-357): if the current order
position differs from the snapshot taken at drag start, emit
`orderPosHasChanged` carrying each selected item's current order position
minus the net displacement, plus the displacement; then, unconditionally,
emit `finishedMoving` with the current order position of every selected
item.  Returns the emitted signals in order. -/
def mouseReleaseEvent (orderPosBeforeMove currentOrderPos : ℤ)
    (selectedOrderPositions : List ℤ) : List WaveSignal :=
  (if orderPosBeforeMove ≠ currentOrderPos then
    let numPlacesMoved := currentOrderPos - orderPosBeforeMove
    [WaveSignal.orderPosHasChanged
      (selectedOrderPositions.map (fun p => p - numPlacesMoved))
      numPlacesMoved]
  else []) ++
  selectedOrderPositions.map WaveSignal.finishedMoving

/-- The item found by the scene at a probed point
(`scene->items( point ).last()` in `mouseMoveEvent`), as the reorder
controller inspects it: whether it is this very item, whether its
`type()` is `WaveformItem::Type`, and (when it is a waveform item) its
order position, scene x position and the x coordinate of its rect's
centre. -/
structure Occupant : Type where
  isThis : Bool
  isWaveformItem : Bool
  orderPos : ℤ
  scenePosX : ℚ
  rectCentreX : ℚ
  deriving DecidableEq, Repr

/-- The inputs of one `mouseMoveEvent` evaluation: current and previous
raw screen-space x coordinates of the pointer, the leftmost selected
item's scene x and order position (`selectedItems.first()`), the rightmost
selected item's scene x, width and order position (`selectedItems.last()`),
the order positions of all selected items, and the occupants the scene
reports under the leftmost item's scene position and under the rightmost
item's right edge point. -/
structure MoveCtx : Type where
  screenPosX : ℚ
  lastScreenPosX : ℚ
  leftmostScenePosX : ℚ
  leftmostOrderPos : ℤ
  rightmostScenePosX : ℚ
  rightmostWidth : ℚ
  rightmostOrderPos : ℤ
  selectedOrderPositions : List ℤ
  leftOccupant : Occupant
  rightOccupant : Occupant
  deriving DecidableEq, Repr

/-- `WaveformItem::mouseMoveEvent` (lines 250-329), after the default move
handling: the in-progress reorder proposals emitted.  Dragging left
(`screenPos().x() < lastScreenPos().x()`): if the item under the leftmost
selected item's scene position is a different waveform item with strictly
smaller order position and the leftmost selected item's left edge is past
the occupant's horizontal midpoint
(`leftmostX < occupantX + occupantRect.center().x()`), emit
`orderPosIsChanging` with all selected order positions and
`numPlacesMoved = occupantOrderPos - leftmostSelectedOrderPos`.
Dragging right is symmetric with the rightmost selected item's right edge
(`rightmostX + rightmostWidth - 1`) and a strictly greater occupant. -/
def mouseMoveEvent (ctx : MoveCtx) : List WaveSignal :=
  (if ctx.screenPosX < ctx.lastScreenPosX then
    if ctx.leftOccupant.isThis = false ∧
        ctx.leftOccupant.isWaveformItem = true then
      if ctx.leftOccupant.orderPos < ctx.leftmostOrderPos then
        if ctx.leftmostScenePosX <
            ctx.leftOccupant.scenePosX + ctx.leftOccupant.rectCentreX then
          [WaveSignal.orderPosIsChanging ctx.selectedOrderPositions
            (ctx.leftOccupant.orderPos - ctx.leftmostOrderPos)]
        else []
      else []
    else []
  else []) ++
  (if ctx.screenPosX > ctx.lastScreenPosX then
    if ctx.rightOccupant.isThis = false ∧
        ctx.rightOccupant.isWaveformItem = true then
      if ctx.rightOccupant.orderPos > ctx.rightmostOrderPos then
        if ctx.rightmostScenePosX + ctx.rightmostWidth - 1 >
            ctx.rightOccupant.scenePosX + ctx.rightOccupant.rectCentreX then
          [WaveSignal.orderPosIsChanging ctx.selectedOrderPositions
            (ctx.rightOccupant.orderPos - ctx.rightmostOrderPos)]
        else []
      else []
    else []
  else [])

/-- The keyboard modifiers of a mouse event, as the three flags this code
can observe. -/
structure Modifiers : Type where
  control : Bool
  shift : Bool
  alt : Bool
  deriving DecidableEq, Repr

/-- Line 216: `event->modifiers() & ~Qt::ControlModifier`. -/
def stripControlModifier (m : Modifiers) : Modifiers :=
  { m with control := false }

/-- How `mousePressEvent` disposes of the press. -/
inductive PressOutcome : Type
  | forwardedToDefault
  | ignored
  | clickedAndIgnored
  deriving DecidableEq, Repr

/-- `WaveformItem::mousePressEvent` (lines 212-246): first the Ctrl-key
modifier is unset on the event, then the press is dispatched on the item's
flags and the button.  Returns the modifiers the event carries after line
217 (seen by all subsequent handling) and the dispatch outcome. -/
def mousePressEvent (modifiers : Modifiers)
    (isSelectable isMovable isRightButton : Bool) :
    Modifiers × PressOutcome :=
  let m := stripControlModifier modifiers
  if isSelectable then
    if isMovable then
      if isRightButton then (m, .ignored)
      else (m, .forwardedToDefault)
    else (m, .ignored)
  else (m, .clickedAndIgnored)

/-- In `minDistances`, the spec's own wording assigns to the LEFT distance
the widths of the other selected items whose order position is GREATER
than this item's, and to the right distance those with smaller order
position.  This definition follows the spec's words (the source code does
the opposite); it exists only to be compared with `minDistances`. -/
def specMinDistances (self : SelItem) (selectedItems : List SelItem) :
    ℚ × ℚ :=
  selectedItems.foldl
    (fun acc it =>
      if it.orderPos > self.orderPos then (acc.1 + it.width, acc.2)
      else if it.orderPos < self.orderPos then (acc.1, acc.2 + it.width)
      else acc)
    (0, 0)

/-- C10: for every mouse press, whatever the selectable/movable flags and
the pressed button, the Control modifier is removed from the event before
any other press handling: the modifiers seen by the rest of the handler
have `control = false`, all other modifier flags unchanged. -/
theorem c10_press_strips_control (m : Modifiers)
    (isSelectable isMovable isRightButton : Bool) :
    (mousePressEvent m isSelectable isMovable isRightButton).1.control
        = false ∧
    (mousePressEvent m isSelectable isMovable isRightButton).1.shift
        = m.shift ∧
    (mousePressEvent m isSelectable isMovable isRightButton).1.alt
        = m.alt ∧
    (mousePressEvent m isSelectable isMovable isRightButton).1
        = stripControlModifier m := by
  unfold mousePressEvent stripControlModifier
  cases isSelectable <;> cases isMovable <;> cases isRightButton <;> simp

/-- C8: `detailLevelOf` applies the fixed cutoffs (`≤ veryHigh` gives
`VERY_HIGH`, otherwise `≤ high` gives `HIGH`, otherwise `LOW`); it is
monotonic (a smaller `binSize` never yields a coarser level); and
`resetSampleBins` derives its detail level exactly as
`detailLevelOf` of the recomputed `binSize`. -/
theorem c8_detail_level_monotone (c : Cutoffs) (b b1 b2 : ℚ)
    (h : b1 ≤ b2) :
    (b ≤ c.veryHigh → detailLevelOf c b = DetailLevel.VERY_HIGH) ∧
    (¬ b ≤ c.veryHigh → b ≤ c.high → detailLevelOf c b = DetailLevel.HIGH) ∧
    (¬ b ≤ c.veryHigh → ¬ b ≤ c.high → detailLevelOf c b = DetailLevel.LOW) ∧
    (detailLevelOf c b2).fineness ≤ (detailLevelOf c b1).fineness ∧
    (∀ st z, (resetSampleBins c st z).detailLevel =
      detailLevelOf c ((st.numFrames : ℚ) / (st.rectWidth * z))) := by
  refine ⟨?_, ?_, ?_, ?_, ?_⟩
  · intro hb; simp [detailLevelOf, hb]
  · intro hb hb2; simp [detailLevelOf, hb, hb2]
  · intro hb hb2; simp [detailLevelOf, hb, hb2]
  · unfold detailLevelOf
    split_ifs <;> simp [DetailLevel.fineness] <;> linarith
  · intro st z
    unfold resetSampleBins detailLevelOf
    split_ifs <;> rfl

/-- Witness for C8 at concrete cutoffs and bin sizes. -/
theorem c8_detail_level_monotone_witness :
    ((1 : ℚ) / 2 ≤ 5) ∧
    (detailLevelOf ⟨1, 10, 1/20⟩ 5).fineness ≤
      (detailLevelOf ⟨1, 10, 1/20⟩ (1/2)).fineness :=
  ⟨by norm_num,
    (c8_detail_level_monotone ⟨1, 10, 1/20⟩ 0 (1/2) 5 (by norm_num)).2.2.2.1⟩

/-- C7 counterexample: `m_numBins = rect().width() * m_globalScaleFactor`
converts a `qreal` to an `int` by truncation toward zero, not by rounding:
with width `1` and scale factor `2.7`, the code stores `numBins = 2`
while the rounded value of `width * scale` is `3`. -/
theorem c7_numbins_not_rounded :
    (resetSampleBins ⟨1, 10, 1/20⟩
        ⟨1, 100, 2, none, 0, 0, DetailLevel.LOW, none, none,
          fun _ => 0, fun _ => 0⟩ (27/10)).numBins = 2 ∧
    round ((1 : ℚ) * (27/10)) = 3 ∧ (2 : ℤ) ≠ 3 := by
  refine ⟨?_, ?_, by decide⟩
  · norm_num [resetSampleBins, cppIntCast]
  · rw [round_eq]; norm_num

/-- C7 (amended): whenever the sample bins are reset, `numBins` is
`width * globalScaleFactor` truncated toward zero (the floor, for a
non-negative product), and `binSize` is the buffer frame count divided by
`width * globalScaleFactor`. -/
theorem c7_reset_numbins_binsize (c : Cutoffs) (st : RenderState) (z : ℚ)
    (h : 0 ≤ st.rectWidth * z) :
    (resetSampleBins c st z).numBins = cppIntCast (st.rectWidth * z) ∧
    (resetSampleBins c st z).binSize =
      (st.numFrames : ℚ) / (st.rectWidth * z) ∧
    (resetSampleBins c st z).numBins = ⌊st.rectWidth * z⌋ := by
  unfold resetSampleBins cppIntCast
  split_ifs <;> simp_all

/-- Witness for C7's amended statement at a concrete state. -/
theorem c7_reset_numbins_binsize_witness :
    (0 : ℚ) ≤ 1 * (27/10) ∧
    (resetSampleBins ⟨1, 10, 1/20⟩
        ⟨1, 100, 2, none, 0, 0, DetailLevel.LOW, none, none,
          fun _ => 0, fun _ => 0⟩ (27/10)).numBins =
      cppIntCast ((1 : ℚ) * (27/10)) :=
  ⟨by norm_num,
    (c7_reset_numbins_binsize ⟨1, 10, 1/20⟩
      ⟨1, 100, 2, none, 0, 0, DetailLevel.LOW, none, none,
        fun _ => 0, fun _ => 0⟩ (27/10) (by norm_num)).1⟩

/-- C5: on mouse release, `orderPosHasChanged` is emitted iff the current
order position differs from the drag-start snapshot; its carried list is
each selected item's current order position minus the displacement, so
adding the displacement back recovers each item's final position; and a
`finishedMoving` signal with the final order position is emitted for every
selected item whether or not a reorder occurred. -/
theorem c5_release_round_trip (before current : ℤ) (sel : List ℤ) :
    (before ≠ current →
      mouseReleaseEvent before current sel =
        WaveSignal.orderPosHasChanged
            (sel.map (fun p => p - (current - before))) (current - before)
          :: sel.map WaveSignal.finishedMoving) ∧
    (before = current →
      mouseReleaseEvent before current sel =
        sel.map WaveSignal.finishedMoving) ∧
    ((∃ old n, WaveSignal.orderPosHasChanged old n ∈
        mouseReleaseEvent before current sel) ↔ before ≠ current) ∧
    ((sel.map (fun p => p - (current - before))).map
        (fun p => p + (current - before)) = sel) ∧
    (∀ p ∈ sel, WaveSignal.finishedMoving p ∈
      mouseReleaseEvent before current sel) := by
  refine ⟨?_, ?_, ?_, ?_, ?_⟩
  · intro h; simp [mouseReleaseEvent, h]
  · intro h; simp [mouseReleaseEvent, h]
  · by_cases hbc : before = current
    · constructor
      · rintro ⟨old, n, hmem⟩
        simp [mouseReleaseEvent, hbc] at hmem
      · intro h; exact absurd hbc h
    · constructor
      · intro _; exact hbc
      · intro _
        exact ⟨sel.map (fun p => p - (current - before)), current - before,
          by simp [mouseReleaseEvent, hbc]⟩
  · rw [List.map_map]
    have : ((fun p => p + (current - before)) ∘
        fun p : ℤ => p - (current - before)) = id := by
      funext p
      simp
    rw [this, List.map_id]
  · intro p hp
    exact List.mem_append_right _ (List.mem_map_of_mem _ hp)

/-- Witness for C5: a release after a net two-position move of items at
final positions `[2, 3]`. -/
theorem c5_release_round_trip_witness :
    (0 : ℤ) ≠ 2 ∧
    mouseReleaseEvent 0 2 [2, 3] =
      WaveSignal.orderPosHasChanged [0, 1] 2
        :: [WaveSignal.finishedMoving 2, WaveSignal.finishedMoving 3] := by
  refine ⟨by decide, ?_⟩
  have h := (c5_release_round_trip 0 2 [2, 3]).1 (by decide)
  simpa using h

/-- C1: the incremental cache fill is minimal and idempotent.  With the
cache range unset it populates exactly the visible range; with the cache
set it queries exactly the uncovered left edge `[fvb, first-1]` (when
`fvb < first`) and right edge `[last+1, lvb]` (when `lvb > last`);
repainting the same visible range twice, or a sub-range of the cached
range, issues zero `findMinMaxSamples` calls; and no paint ever queries a
bin inside the already-cached range. -/
theorem c1_cache_fill_minimal_idempotent (fvb lvb f l : ℤ)
    (st : CacheState) :
    (st.firstCalculatedBin = none ∨ st.lastCalculatedBin = none →
      binCacheFill fvb lvb st = (⟨some fvb, some lvb⟩, [(fvb, lvb)])) ∧
    ((binCacheFill fvb lvb ⟨some f, some l⟩).2 =
      (if fvb < f then [(fvb, f - 1)] else []) ++
      (if lvb > l then [(l + 1, lvb)] else [])) ∧
    (f ≤ fvb → lvb ≤ l →
      (binCacheFill fvb lvb ⟨some f, some l⟩).2 = []) ∧
    (binCacheFill fvb lvb (binCacheFill fvb lvb st).1).2 = [] ∧
    queriedBins (binCacheFill fvb lvb ⟨some f, some l⟩).2 ∩
      Finset.Icc f l = ∅ := by
  obtain ⟨fc, lc⟩ := st
  refine ⟨?_, ?_, ?_, ?_, ?_⟩
  · intro h
    cases fc <;> cases lc <;> simp_all [binCacheFill]
  · simp only [binCacheFill]
    split_ifs <;> simp
  · intro h1 h2
    simp only [binCacheFill]
    rw [if_neg (not_lt.2 h1), if_neg (not_lt.2 h2)]
    rfl
  · cases fc <;> cases lc <;>
      · simp only [binCacheFill]
        split_ifs <;> simp_all
  · simp only [binCacheFill]
    split_ifs <;>
      · ext x
        simp [queriedBins, Finset.mem_Icc]
        try omega

/-- Witness for C1: an empty cache populates exactly the visible range,
and a repaint of a sub-range of a cached range issues zero queries. -/
theorem c1_cache_fill_minimal_idempotent_witness :
    binCacheFill 2 6 ⟨none, none⟩ = (⟨some 2, some 6⟩, [(2, 6)]) ∧
    (binCacheFill 4 5 ⟨some 3, some 5⟩).2 = [] := by
  constructor
  · exact (c1_cache_fill_minimal_idempotent 2 6 0 0 ⟨none, none⟩).1
      (Or.inl rfl)
  · exact (c1_cache_fill_minimal_idempotent 4 5 3 5 ⟨none, none⟩).2.2.1
      (by decide) (by decide)

/-- C2: a paint observing a horizontal scale factor different from the
stored one stores the new factor, recomputes `numBins` and `binSize`,
re-derives the detail level from the new `binSize`, clears the
calculated-bin range to `NOT_SET`, and resizes every channel's min and max
cache arrays to `numBins` — except that at `VERY_HIGH` the arrays are left
untouched. -/
theorem c2_zoom_change_resets (c : Cutoffs) (z1 z2 : ℚ) (st : RenderState)
    (hne : z1 ≠ z2) (hz : st.globalScaleFactor = some z1) :
    (paintZoomStep c z2 st).globalScaleFactor = some z2 ∧
    (paintZoomStep c z2 st).numBins = cppIntCast (st.rectWidth * z2) ∧
    (paintZoomStep c z2 st).binSize =
      (st.numFrames : ℚ) / (st.rectWidth * z2) ∧
    (paintZoomStep c z2 st).detailLevel =
      detailLevelOf c ((st.numFrames : ℚ) / (st.rectWidth * z2)) ∧
    (paintZoomStep c z2 st).firstCalculatedBin = none ∧
    (paintZoomStep c z2 st).lastCalculatedBin = none ∧
    ((paintZoomStep c z2 st).detailLevel ≠ DetailLevel.VERY_HIGH →
      ∀ i, i < st.numChans →
        (paintZoomStep c z2 st).minLens i =
          (cppIntCast (st.rectWidth * z2)).toNat ∧
        (paintZoomStep c z2 st).maxLens i =
          (cppIntCast (st.rectWidth * z2)).toNat) ∧
    ((paintZoomStep c z2 st).detailLevel = DetailLevel.VERY_HIGH →
      (paintZoomStep c z2 st).minLens = st.minLens ∧
      (paintZoomStep c z2 st).maxLens = st.maxLens) := by
  have hcond : st.globalScaleFactor ≠ some z2 := by
    rw [hz]
    intro hcontra
    exact hne (Option.some_injective ℚ hcontra)
  unfold paintZoomStep
  rw [if_pos hcond]
  unfold resetSampleBins detailLevelOf
  dsimp only
  split_ifs with h1 h2
  · exact ⟨rfl, rfl, rfl, rfl, rfl, rfl,
      fun hcontra => absurd rfl hcontra, fun _ => ⟨rfl, rfl⟩⟩
  · refine ⟨rfl, rfl, rfl, rfl, rfl, rfl, ?_, ?_⟩
    · intro _ i hi
      exact ⟨by simp [resizeChans, hi], by simp [resizeChans, hi]⟩
    · intro hcontra
      exact hcontra.elim
  · refine ⟨rfl, rfl, rfl, rfl, rfl, rfl, ?_, ?_⟩
    · intro _ i hi
      exact ⟨by simp [resizeChans, hi], by simp [resizeChans, hi]⟩
    · intro hcontra
      exact hcontra.elim

/-- Witness for C2: a repaint at scale 2 after scale 1 on a concrete
state. -/
theorem c2_zoom_change_resets_witness :
    (1 : ℚ) ≠ 2 ∧
    (some (1 : ℚ) = some (1 : ℚ)) ∧
    (paintZoomStep ⟨1, 10, 1/20⟩ 2
        ⟨3, 600, 2, some 1, 3, 200, DetailLevel.LOW, some 0, some 2,
          fun _ => 3, fun _ => 3⟩).globalScaleFactor = some 2 := by
  refine ⟨by norm_num, rfl, ?_⟩
  exact (c2_zoom_change_resets ⟨1, 10, 1/20⟩ 1 2
    ⟨3, 600, 2, some 1, 3, 200, DetailLevel.LOW, some 0, some 2,
      fun _ => 3, fun _ => 3⟩ (by norm_num) rfl).1

/-- C6: during a leftward drag (`screenPos.x < lastScreenPos.x`), the
in-progress reorder proposal is emitted exactly when the occupant under
the leftmost selected item's position is a different waveform item with
strictly smaller order position whose horizontal midpoint the leftmost
selected item's left edge has crossed, and it carries the selected items'
current order positions and
`numPlacesMoved = occupantOrderPos - leftmostSelectedOrderPos`. -/
theorem c6_leftward_swap_proposal (ctx : MoveCtx)
    (h : ctx.screenPosX < ctx.lastScreenPosX) :
    mouseMoveEvent ctx =
      if ctx.leftOccupant.isThis = false ∧
          ctx.leftOccupant.isWaveformItem = true ∧
          ctx.leftOccupant.orderPos < ctx.leftmostOrderPos ∧
          ctx.leftmostScenePosX <
            ctx.leftOccupant.scenePosX + ctx.leftOccupant.rectCentreX then
        [WaveSignal.orderPosIsChanging ctx.selectedOrderPositions
          (ctx.leftOccupant.orderPos - ctx.leftmostOrderPos)]
      else [] := by
  have h2 : ¬ ctx.screenPosX > ctx.lastScreenPosX := by linarith
  unfold mouseMoveEvent
  rw [if_pos h, if_neg h2]
  split_ifs <;> simp_all

/-- Witness for C6: two adjacent items at order positions 2 and 3; the
item at position 3 is dragged left past the midpoint of the item at
position 2, yielding `numPlacesMoved = -1`. -/
theorem c6_leftward_swap_proposal_witness :
    (0 : ℚ) < 1 ∧
    mouseMoveEvent
      ⟨0, 1, 4, 3, 4, 10, 3, [3], ⟨false, true, 2, 0, 5⟩,
        ⟨false, true, 2, 0, 5⟩⟩ =
      [WaveSignal.orderPosIsChanging [3] (-1)] := by
  refine ⟨by norm_num, ?_⟩
  rw [c6_leftward_swap_proposal _ (by norm_num)]
  norm_num

/-- C3 counterexample: `firstVisibleBin` is clamped only from below, so
it need not lie in `[0, numBins-1]`.  With item width `1.5` and scale
factor `1` (so `numBins = 1`) and an exposed rectangle spanning
`[1.2, 1.4]` — inside the item's rect — the code computes
`firstVisibleBin = 1`, which is outside `[0, 0]`. -/
theorem c3_first_visible_bin_out_of_range :
    ¬ (0 ≤ (visibleBins 1 (cppIntCast ((3/2 : ℚ) * 1)) (6/5) (7/5)).1 ∧
       (visibleBins 1 (cppIntCast ((3/2 : ℚ) * 1)) (6/5) (7/5)).1 ≤
         cppIntCast ((3/2 : ℚ) * 1) - 1) := by
  have h1 : cppIntCast ((3/2 : ℚ) * 1) = 1 := by
    norm_num [cppIntCast]
  have h2 : (visibleBins 1 (cppIntCast ((3/2 : ℚ) * 1)) (6/5) (7/5)).1 = 1 := by
    rw [h1]
    norm_num [visibleBins]
  rw [h2, h1]
  decide

/-- C3 (amended): for every exposed rectangle inside the item's rect and
non-negative scale, `firstVisibleBin ≥ 0` and
`lastVisibleBin ≤ numBins - 1` by clamping, and `firstVisibleBin ≤
numBins` (it may equal `numBins`, exceeding `lastVisibleBin`, in which
case no bin is touched); consequently, starting from any reachable cache
state, every cache-array read of the drawing loops and every cache-array
write of the fill step lies in `[0, numBins)`, and the populated range
invariant is preserved. -/
theorem c3_bin_accesses_in_bounds (scale width left right : ℚ)
    (numBins : ℤ) (st : CacheState)
    (hs : 0 ≤ scale) (hl : 0 ≤ left) (hlw : left ≤ width) (hr : 0 ≤ right)
    (hnb : numBins = cppIntCast (width * scale))
    (hinv : cacheInv numBins st) :
    0 ≤ (visibleBins scale numBins left right).1 ∧
    (visibleBins scale numBins left right).2 ≤ numBins - 1 ∧
    (visibleBins scale numBins left right).1 ≤ numBins ∧
    drawnBinReads (visibleBins scale numBins left right).1
        (visibleBins scale numBins left right).2 ⊆
      Finset.Icc 0 (numBins - 1) ∧
    queriedBins (binCacheFill (visibleBins scale numBins left right).1
        (visibleBins scale numBins left right).2 st).2 ⊆
      Finset.Icc 0 (numBins - 1) ∧
    cacheInv numBins (binCacheFill (visibleBins scale numBins left right).1
        (visibleBins scale numBins left right).2 st).1 := by
  have hw : 0 ≤ width := le_trans hl hlw
  have hws : 0 ≤ width * scale := mul_nonneg hw hs
  have hnbf : numBins = ⌊width * scale⌋ := by
    rw [hnb]; unfold cppIntCast; rw [if_pos hws]
  have hnb0 : 0 ≤ numBins := by
    rw [hnbf]; exact Int.floor_nonneg.2 hws
  have hfl : ⌊left * scale⌋ ≤ numBins := by
    rw [hnbf]
    exact Int.floor_le_floor (mul_le_mul_of_nonneg_right hlw hs)
  have hA : 0 ≤ (visibleBins scale numBins left right).1 :=
    le_max_right _ _
  have hC : (visibleBins scale numBins left right).1 ≤ numBins :=
    max_le hfl hnb0
  have hB : (visibleBins scale numBins left right).2 ≤ numBins - 1 :=
    min_le_right _ _
  have hceil : (0 : ℤ) ≤ ⌈right * scale⌉ :=
    Int.ceil_nonneg (mul_nonneg hr hs)
  have hD : -1 ≤ (visibleBins scale numBins left right).2 := by
    refine le_min (by omega) (by omega)
  set fvb := (visibleBins scale numBins left right).1 with hfvb
  set lvb := (visibleBins scale numBins left right).2 with hlvb
  refine ⟨hA, hB, hC, ?_, ?_, ?_⟩
  · intro x hx
    simp only [drawnBinReads, Finset.mem_Icc] at hx ⊢
    omega
  · obtain ⟨fc, lc⟩ := st
    cases fc with
    | none =>
        intro x hx
        simp only [binCacheFill, queriedBins, Finset.mem_union,
          Finset.mem_Icc, Finset.not_mem_empty, or_false] at hx
        simp only [Finset.mem_Icc]
        omega
    | some f =>
        cases lc with
        | none =>
            intro x hx
            simp only [binCacheFill, queriedBins, Finset.mem_union,
              Finset.mem_Icc, Finset.not_mem_empty, or_false] at hx
            simp only [Finset.mem_Icc]
            omega
        | some l =>
            obtain ⟨hf0, hfn, hl0, hln⟩ := hinv
            intro x hx
            simp only [binCacheFill] at hx
            simp only [Finset.mem_Icc]
            split_ifs at hx <;>
              simp only [queriedBins, Finset.mem_union, Finset.mem_Icc,
                Finset.not_mem_empty, or_false] at hx <;>
              omega
  · obtain ⟨fc, lc⟩ := st
    cases fc with
    | none =>
        simp only [binCacheFill, cacheInv]
        omega
    | some f =>
        cases lc with
        | none =>
            simp only [binCacheFill, cacheInv]
            omega
        | some l =>
            obtain ⟨hf0, hfn, hl0, hln⟩ := hinv
            simp only [binCacheFill, cacheInv]
            split_ifs <;> omega

/-- Witness for C3's amended statement: scale 1, width 2, full exposure,
empty cache. -/
theorem c3_bin_accesses_in_bounds_witness :
    ((0 : ℚ) ≤ 1 ∧ (0 : ℚ) ≤ 0 ∧ (0 : ℚ) ≤ 2 ∧
      (2 : ℤ) = cppIntCast ((2 : ℚ) * 1)) ∧
    queriedBins (binCacheFill (visibleBins 1 2 0 2).1
        (visibleBins 1 2 0 2).2 ⟨none, none⟩).2 ⊆
      Finset.Icc 0 1 := by
  refine ⟨⟨by norm_num, le_refl 0, by norm_num, by norm_num [cppIntCast]⟩, ?_⟩
  exact (c3_bin_accesses_in_bounds 1 2 0 2 2 ⟨none, none⟩ (by norm_num)
    (le_refl 0) (by norm_num) (by norm_num) (by norm_num [cppIntCast])
    ⟨rfl, rfl⟩).2.2.2.2.1

/-- The accumulation loop of `itemChange` computes, as the left distance,
the total width of the selected items with strictly smaller order
position, and as the right distance the total width of those with strictly
greater order position. -/
theorem minDistances_eq_sums (self : SelItem) (sel : List SelItem) :
    minDistances self sel =
      (((sel.filter (fun it => it.orderPos < self.orderPos)).map
          SelItem.width).sum,
       ((sel.filter (fun it => self.orderPos < it.orderPos)).map
          SelItem.width).sum) := by
  suffices h : ∀ (l : List SelItem) (a b : ℚ),
      l.foldl
        (fun acc it =>
          if self.orderPos > it.orderPos then (acc.1 + it.width, acc.2)
          else if self.orderPos < it.orderPos then (acc.1, acc.2 + it.width)
          else acc)
        (a, b) =
      (a + ((l.filter (fun it => it.orderPos < self.orderPos)).map
          SelItem.width).sum,
       b + ((l.filter (fun it => self.orderPos < it.orderPos)).map
          SelItem.width).sum) by
    unfold minDistances
    rw [h sel 0 0]
    simp
  intro l
  induction l with
  | nil => intro a b; simp
  | cons hd tl ih =>
      intro a b
      simp only [List.foldl_cons, List.filter_cons]
      rcases lt_trichotomy hd.orderPos self.orderPos with hcmp | hcmp | hcmp
      · rw [if_pos (show self.orderPos > hd.orderPos from hcmp), ih]
        simp [hcmp, hcmp.asymm, add_assoc]
      · rw [if_neg (show ¬ self.orderPos > hd.orderPos by omega),
            if_neg (show ¬ self.orderPos < hd.orderPos by omega), ih]
        simp [hcmp, lt_irrefl]
      · rw [if_neg (show ¬ self.orderPos > hd.orderPos by omega),
            if_pos hcmp, ih]
        simp [hcmp, hcmp.asymm, add_assoc]

/-- C4 counterexample: the claim attributes the left clamp to the other
selected items with GREATER order position, but the code (line 169) uses
those with SMALLER order position.  An item at order position 0 with one
other selected item at position 1 (width 10), dragged to x = -5, is
clamped to x = 0, strictly less than the claim's required lower bound
of 10.  `specMinDistances` spells out the claim's wording. -/
theorem c4_left_clamp_uses_smaller_positions :
    (itemChangePos ⟨0, 5⟩ [⟨0, 5⟩, ⟨1, 10⟩] true 100 (-5, 0)).1 <
      (specMinDistances ⟨0, 5⟩ [⟨0, 5⟩, ⟨1, 10⟩]).1 := by
  norm_num [itemChangePos, minDistances, specMinDistances]

/-- C4 (amended): on every proposed position change of a selected item,
provided the scene is wide enough to hold the selected items, the clamped
x position is at least the total width of the other selected items with
SMALLER order position, the right edge `x + width - 1` does not exceed the
scene's right edge minus the total width of the other selected items with
GREATER order position, and the y position is pinned to the ruler height
regardless of the proposed value (and of selection). -/
theorem c4_bounds_clamp (self : SelItem) (sel : List SelItem)
    (sceneWidth : ℚ) (pos : ℚ × ℚ)
    (hfit :
      ((sel.filter (fun it => it.orderPos < self.orderPos)).map
          SelItem.width).sum + self.width +
        ((sel.filter (fun it => self.orderPos < it.orderPos)).map
          SelItem.width).sum ≤ sceneWidth) :
    ((sel.filter (fun it => it.orderPos < self.orderPos)).map
        SelItem.width).sum ≤ (itemChangePos self sel true sceneWidth pos).1 ∧
    (itemChangePos self sel true sceneWidth pos).1 + self.width - 1 ≤
      sceneWidth -
        ((sel.filter (fun it => self.orderPos < it.orderPos)).map
          SelItem.width).sum ∧
    (itemChangePos self sel true sceneWidth pos).2 = bpmRulerHeight ∧
    (∀ (b : Bool) (q : ℚ × ℚ),
      (itemChangePos self sel b sceneWidth q).2 = bpmRulerHeight) := by
  have hmd := minDistances_eq_sums self sel
  refine ⟨?_, ?_, rfl, fun b q => rfl⟩
  · unfold itemChangePos
    rw [if_pos rfl, hmd]
    dsimp only
    split_ifs <;> linarith
  · unfold itemChangePos
    rw [if_pos rfl, hmd]
    dsimp only
    split_ifs <;> linarith

/-- Witness for C4's amended statement: an item of width 5 at order
position 1 between selected neighbours of widths 3 (position 0) and 4
(position 2), in a scene of width 100, proposed at x = -7. -/
theorem c4_bounds_clamp_witness :
    ((([⟨0, 3⟩, ⟨1, 5⟩, ⟨2, 4⟩] :
        List SelItem).filter
          (fun it => it.orderPos < (⟨1, 5⟩ : SelItem).orderPos)).map
        SelItem.width).sum + (5 : ℚ) +
      ((([⟨0, 3⟩, ⟨1, 5⟩, ⟨2, 4⟩] :
        List SelItem).filter
          (fun it => (⟨1, 5⟩ : SelItem).orderPos < it.orderPos)).map
        SelItem.width).sum ≤ 100 ∧
    ((([⟨0, 3⟩, ⟨1, 5⟩, ⟨2, 4⟩] :
        List SelItem).filter
          (fun it => it.orderPos < (⟨1, 5⟩ : SelItem).orderPos)).map
        SelItem.width).sum ≤
      (itemChangePos ⟨1, 5⟩ [⟨0, 3⟩, ⟨1, 5⟩, ⟨2, 4⟩] true 100 (-7, 9)).1 := by
  constructor
  · norm_num [List.filter]
  · exact (c4_bounds_clamp ⟨1, 5⟩ [⟨0, 3⟩, ⟨1, 5⟩, ⟨2, 4⟩] 100 (-7, 9)
      (by norm_num [List.filter])).1

/-- C9: at `VERY_HIGH` detail, with the whole item exposed, the polyline
drawn for a channel visits every frame once, in frame order, at x
position `frame * (width / frameCount)` and y value the sign-inverted
sample; in particular, for sample frames `[0.1, -0.3, 0.5, -0.2]` it
visits exactly 4 points with y values `[-0.1, 0.3, -0.5, 0.2]`. -/
theorem c9_very_high_polyline :
    (∀ (w : ℚ) (n : ℕ) (samples : List ℚ) (left right : ℚ) (k : ℕ),
      k < (drawWaveformFromSamples w n samples left right).length →
      (drawWaveformFromSamples w n samples left right).getD k (0, 0) =
        (((⌊left / (w / (n : ℚ))⌋ + (k : ℤ)) : ℚ) * (w / (n : ℚ)),
          -(samples.getD (⌊left / (w / (n : ℚ))⌋ + (k : ℤ)).toNat 0))) ∧
    (∀ (w : ℚ) (n : ℕ) (samples : List ℚ), 0 < w → 0 < n →
      (drawWaveformFromSamples w n samples 0 w).length = n ∧
      ∀ k, k < n →
        (drawWaveformFromSamples w n samples 0 w).getD k (0, 0) =
          ((k : ℚ) * (w / (n : ℚ)), -(samples.getD k 0))) ∧
    drawWaveformFromSamples 4 4 [1/10, -3/10, 1/2, -1/5] 0 4 =
      [(0, -(1/10)), (1, 3/10), (2, -(1/2)), (3, 1/5)] := by
  have anyRect : ∀ (w : ℚ) (n : ℕ) (samples : List ℚ) (left right : ℚ)
      (k : ℕ),
      k < (drawWaveformFromSamples w n samples left right).length →
      (drawWaveformFromSamples w n samples left right).getD k (0, 0) =
        (((⌊left / (w / (n : ℚ))⌋ + (k : ℤ)) : ℚ) * (w / (n : ℚ)),
          -(samples.getD (⌊left / (w / (n : ℚ))⌋ + (k : ℤ)).toNat 0)) := by
    intro w n samples left right k hk
    simp only [drawWaveformFromSamples] at hk ⊢
    rw [List.getD_eq_getElem _ _ hk]
    simp
  have main : ∀ (w : ℚ) (n : ℕ) (samples : List ℚ), 0 < w → 0 < n →
      (drawWaveformFromSamples w n samples 0 w).length = n ∧
      ∀ k, k < n →
        (drawWaveformFromSamples w n samples 0 w).getD k (0, 0) =
          ((k : ℚ) * (w / (n : ℚ)), -(samples.getD k 0)) := by
    intro w n samples hw hn
    have hw0 : w ≠ 0 := ne_of_gt hw
    have hn0 : (n : ℚ) ≠ 0 := Nat.cast_ne_zero.2 hn.ne'
    have hdiv : w / (w / (n : ℚ)) = (n : ℚ) := by
      field_simp
    have hfloor : ⌊(0 : ℚ) / (w / (n : ℚ))⌋ = 0 := by
      simp
    have hceil : ⌈w / (w / (n : ℚ))⌉ = (n : ℤ) := by
      rw [hdiv, Int.ceil_natCast]
    have hmin : min ((n : ℤ)) ((n : ℤ) - 1) = (n : ℤ) - 1 := by
      omega
    have hlist : drawWaveformFromSamples w n samples 0 w =
        (List.range n).map (fun count : ℕ =>
          ((count : ℚ) * (w / (n : ℚ)), -(samples.getD count 0))) := by
      simp only [drawWaveformFromSamples, hfloor, hceil, hmin]
      have hcount : ((n : ℤ) - 1 - 0 + 1).toNat = n := by omega
      rw [hcount]
      refine List.map_congr_left ?_
      intro count _
      push_cast
      simp
    constructor
    · rw [hlist]
      simp
    · intro k hk
      rw [hlist]
      rw [List.getD_eq_getElem _ _ (by simpa using hk)]
      simp
  refine ⟨anyRect, main, ?_⟩
  have h := main 4 4 [1/10, -3/10, 1/2, -1/5] (by norm_num) (by norm_num)
  obtain ⟨hlen, hget⟩ := h
  have h0 := hget 0 (by norm_num)
  have h1 := hget 1 (by norm_num)
  have h2 := hget 2 (by norm_num)
  have h3 := hget 3 (by norm_num)
  have hlen4 : (drawWaveformFromSamples 4 4 [1/10, -3/10, 1/2, -1/5]
      0 4).length = 4 := hlen
  refine List.ext_getElem (by rw [hlen4]; rfl) ?_
  intro i hi hi2
  have hi4 : i < 4 := by omega
  interval_cases i <;>
    · rw [← List.getD_eq_getElem _ (0, 0) hi]
      first
        | (rw [h0]; norm_num)
        | (rw [h1]; norm_num)
        | (rw [h2]; norm_num)
        | (rw [h3]; norm_num)

/-- Witness for C9 at the spec's concrete sample frames. -/
theorem c9_very_high_polyline_witness :
    (0 : ℚ) < 4 ∧ 0 < 4 ∧
    (drawWaveformFromSamples 4 4 [1/10, -3/10, 1/2, -1/5] 0 4).length = 4 :=
  ⟨by norm_num, by norm_num,
    (c9_very_high_polyline.2.1 4 4 [1/10, -3/10, 1/2, -1/5]
      (by norm_num) (by norm_num)).1⟩

end Shuriken
